import Mathlib

/-!
Verification of the RAG core of the RAGLLM repository.

The Python sources modelled here are `src/core.py` (context assembly,
scored retrieval, follow-up generation), `src/utils.py` (index loading,
semantic search), and `src/ingestion.py` (document loading, URL ingestion,
chunking).  Pure string manipulation is modelled over `List Char` so that
every definition is executable and kernel-reducible; Python `str` values
are code-point sequences, which `List Char` matches.
-/

namespace RAG

set_option maxRecDepth 10000

/-! ## Basic string helpers (models of Python str operations) -/

/-- Model of the Python whitespace test used by `str.strip` and `\s`:
space, tab, newline, carriage return (the ASCII whitespace actually
occurring in this pipeline). -/
def wsChar (c : Char) : Bool := c.isWhitespace

/-- Model of Python `str.strip()`: drop leading and trailing whitespace. -/
def stripChars (l : List Char) : List Char :=
  ((l.dropWhile wsChar).reverse.dropWhile wsChar).reverse

/-- Boolean test that `pat` is a prefix of `l`. -/
def isPrefixList : List Char → List Char → Bool
  | [], _ => true
  | _ :: _, [] => false
  | a :: as, b :: bs => a = b && isPrefixList as bs

/-- Model of Python `pat in text` (substring containment). -/
def containsSeq (pat : List Char) : List Char → Bool
  | [] => isPrefixList pat []
  | c :: cs => isPrefixList pat (c :: cs) || containsSeq pat cs

/-- Recursion worker for `splitOnList`, structural on a fuel argument so
that the kernel can evaluate it; one unit of fuel is spent per leading
character examined, so fuel `l.length` is always enough and the
fuel-exhausted branch is unreachable from `splitOnList`. -/
def splitOnAuxF (sep : List Char) : Nat → List Char → List (List Char)
  | _, [] => [[]]
  | 0, l => [l]
  | fuel + 1, c :: cs =>
    if !sep.isEmpty && isPrefixList sep (c :: cs) then
      [] :: splitOnAuxF sep fuel (List.drop (sep.length - 1) cs)
    else
      match splitOnAuxF sep fuel cs with
      | [] => [[c]]
      | p :: ps => (c :: p) :: ps

/-- Model of Python `text.split(sep)` for a non-empty separator `sep`:
split at each leftmost, non-overlapping occurrence, keeping empty pieces.
For `sep = []` it returns `[text]` (Python raises there; never called so). -/
def splitOnList (sep l : List Char) : List (List Char) :=
  splitOnAuxF sep l.length l

/-- Model of Python `str.strip()` on `String`. -/
def pyStrip (s : String) : String := String.mk (stripChars s.data)

/-- Model of Python `text.split(sep)` on `String` (non-empty `sep`). -/
def pySplit (s sep : String) : List String :=
  (splitOnList sep.data s.data).map String.mk

/-- Model of Python `str.lower()` restricted to the ASCII fold performed
by `Char.toLower` (sufficient for the HTML markers searched here). -/
def toLowerChars (l : List Char) : List Char := l.map Char.toLower

/-- Model of `pathlib.Path(s).name` for POSIX-style paths: the last
non-empty path component. -/
def pathName (s : String) : String :=
  (((s.splitOn "/").filter (fun p => p ≠ "")).getLastD "")

/-! ## Data model

A LangChain `Document` is a page content plus a metadata dict.  The
metadata keys actually read or written by this repository are `source`,
`page`, `score` and `start_index`; the dict is modelled as a structure of
optional fields (`none` = key absent). -/

structure Metadata where
  source : Option String
  page : Option Nat
  score : Option ℚ
  startIndex : Option Int
  deriving DecidableEq

structure Document where
  pageContent : String
  metadata : Metadata
  deriving DecidableEq

/-! ## Messages (langchain_core.messages) -/

inductive Message where
  | system (content : String)
  | human (content : String)
  | ai (content : String)
  deriving DecidableEq

def Message.isSystemMsg : Message → Bool
  | .system _ => true
  | _ => false

/-- One entry of the `chat_history` list handed to `_build_messages`:
a dict with a `role` and a `content` key. -/
structure Turn where
  role : String
  content : String
  deriving DecidableEq

/-! ## core.py — context assembly -/

/-- `DEFAULT_SYSTEM_PROMPT` from `src/core.py`. -/
def DEFAULT_SYSTEM_PROMPT : String :=
  "You are a precise document-analysis assistant. Your ONLY job is to answer questions using the CONTEXT provided below. Follow these rules strictly:\n\n1. Answer DIRECTLY — no preamble, no \"Based on the context…\", no meta-commentary.\n2. Use ONLY information from the CONTEXT. Never use outside knowledge.\n3. If the context contains the answer, give a thorough, detailed response.\n4. If the user asks for a summary, provide a comprehensive summary of ALL the content in the context.\n5. If the answer is truly not in the context, say exactly: \"I'm sorry, but the provided documents do not contain information to answer this question.\"\n6. Treat document filenames as metadata — if the author or title appears in the filename, state it as fact.\n7. When continuing a conversation, use the chat history for context but always ground answers in the documents."

/-- `_CONTEXT_TEMPLATE.format(context=...)` from `src/core.py`. -/
def contextTemplate (context : String) : String :=
  "=== RETRIEVED DOCUMENT CONTEXT ===\n\n" ++ context ++ "\n\n=== END OF CONTEXT ==="

/-- Model of `doc.metadata.get("page", "?")` rendered into the header. -/
def pageDisplay : Option Nat → String
  | some n => toString n
  | none => "?"

/-- Model of the optional relevance tag: Python renders the score with
percent formatting; the float rounding is modelled by rational `round`. -/
def scoreDisplay : Option ℚ → String
  | some s => " | Relevance: " ++ toString (round (s * 100)) ++ "%"
  | none => ""

/-- `format_docs` from `src/core.py`: combine retrieved documents into a
single context string with metadata headers; an empty result list yields
the explicit no-documents marker. -/
def format_docs (docs : List Document) : String :=
  if docs.isEmpty then "(No documents were retrieved.)"
  else
    String.intercalate "\n\n"
      (docs.enum.map (fun p =>
        "[Source " ++ toString (p.1 + 1) ++ ": "
          ++ pathName (p.2.metadata.source.getD "Unknown")
          ++ " | Page " ++ pageDisplay p.2.metadata.page
          ++ scoreDisplay p.2.metadata.score ++ "]"
          ++ "\n" ++ p.2.pageContent))

/-- The history part of `_build_messages`: take the last 6 turns and keep
only those whose role is `user` or `assistant`, mapping them to human/ai
messages.  `chat_history` may be `None` (and an empty list is falsy in
Python, so it is skipped the same way). -/
def history_messages (chat_history : Option (List Turn)) : List Message :=
  match chat_history with
  | none => []
  | some h =>
    if h.isEmpty then []
    else
      (h.drop (h.length - 6)).filterMap (fun m =>
        if m.role = "user" then some (Message.human m.content)
        else if m.role = "assistant" then some (Message.ai m.content)
        else none)

/-- `_build_messages` from `src/core.py`: one system message (the given
prompt, or the default when absent or empty — Python `or` treats the
empty string as falsy), then the windowed history, then one human message
carrying the context block and the question. -/
def build_messages (query : String) (docs : List Document)
    (chat_history : Option (List Turn)) (system_prompt : Option String) :
    List Message :=
  let prompt :=
    match system_prompt with
    | none => DEFAULT_SYSTEM_PROMPT
    | some s => if s = "" then DEFAULT_SYSTEM_PROMPT else s
  let context_block := contextTemplate (format_docs docs)
  [Message.system prompt]
    ++ history_messages chat_history
    ++ [Message.human (context_block ++ "\n\nQuestion: " ++ query)]

/-! ## core.py — follow-up generation -/

/-- The fixed two-message prompt built inside `generate_followups`. -/
def followupPrompt (query response : String) : List Message :=
  [Message.system
      ("You are a helpful assistant that suggests follow-up questions. "
        ++ "Given a question and its answer, suggest exactly 3 short, "
        ++ "specific follow-up questions the user might want to ask next. "
        ++ "Return ONLY the 3 questions, one per line, no numbering, no bullet points."),
   Message.human ("Question: " ++ query ++ "\n\nAnswer: " ++ response.take 500)]

/-- `generate_followups` from `src/core.py`.  The chat model collaborator
is a function from the prompt to either a response content string or a
raised exception (`Except.error`); the `try` block catches the latter and
degrades to an empty list. -/
def generate_followups (llm : List Message → Except String String)
    (query response : String) : List String :=
  match llm (followupPrompt query response) with
  | .error _ => []
  | .ok content =>
    (((pySplit (pyStrip content) "\n").filterMap (fun q =>
        if pyStrip q = "" then none else some (pyStrip q))).take 3)

/-! ## Retrieval (core.py `retrieve_with_scores`, utils.py `semantic_search`)

The vector store is the list of stored chunk `Document`s; the FAISS
collaborator `similarity_search_with_relevance_scores` is library code
outside this repository.  Modelled from the spec: it scores every stored
chunk with the query's relevance function (the composition of
`embed_query` and the index's similarity, abstracted as
`score : Document → ℚ`), keeps only the chunks matching the metadata
filter, and returns the `k` highest-scoring ones in non-increasing score
order. -/

/-- Ordering used to rank scored chunks: higher relevance first. -/
def scoreGE (a b : Document × ℚ) : Prop := b.2 ≤ a.2

instance : DecidableRel scoreGE := fun a b => inferInstanceAs (Decidable (b.2 ≤ a.2))

instance : IsTotal (Document × ℚ) scoreGE := ⟨fun a b => le_total b.2 a.2⟩

instance : IsTrans (Document × ℚ) scoreGE := ⟨fun _ _ _ h1 h2 => le_trans h2 h1⟩

/-- Modelled from the spec: the FAISS search used by both
`retrieve_with_scores` and `semantic_search`.  The metadata filter
`{"source": X}` keeps exactly the chunks whose `source` metadata equals
`X`; ranking is by non-increasing score, and the first `k` are returned. -/
def similarity_search_with_relevance_scores (score : Document → ℚ)
    (db : List Document) (k : Nat) (filterSource : Option String) :
    List (Document × ℚ) :=
  let cands :=
    match filterSource with
    | none => db
    | some s => db.filter (fun d => d.metadata.source = some s)
  (List.insertionSort scoreGE (cands.map (fun d => (d, score d)))).take k

/-- `retrieve_with_scores` from `src/core.py`: run the scored similarity
search and attach each score to the document's metadata. -/
def retrieve_with_scores (score : Document → ℚ) (db : List Document)
    (top_k : Nat) (filter_path : Option String) : List Document :=
  (similarity_search_with_relevance_scores score db top_k filter_path).map
    (fun p => { p.1 with metadata := { p.1.metadata with score := some p.2 } })

/-- One entry of the result list of `semantic_search` in `src/utils.py`:
a dict with content, basename of the source, page (or "?"), and the
score rounded to 4 decimal places. -/
structure SearchResult where
  content : String
  source : String
  page : String
  score : ℚ
  deriving DecidableEq

/-- Model of Python `round(x, 4)` on the relevance score (float rounding
to four decimal places, tie-breaking abstracted by rational `round`). -/
def roundTo4 (q : ℚ) : ℚ := (round (q * 10000) : ℤ) / 10000

/-- `semantic_search` from `src/utils.py`: `None` store yields no
results; otherwise run the scored similarity search and package each hit. -/
def semantic_search (db : Option (List Document)) (score : Document → ℚ)
    (top_k : Nat) (filter_path : Option String) : List SearchResult :=
  match db with
  | none => []
  | some store =>
    (similarity_search_with_relevance_scores score store top_k filter_path).map
      (fun p =>
        { content := p.1.pageContent
          source := pathName (p.1.metadata.source.getD "Unknown")
          page := pageDisplay p.1.metadata.page
          score := roundTo4 p.2 })

/-! ## utils.py — loading the persisted index -/

/-- State of the vector-index directory as seen by `load_faiss_index`:
whether `index.faiss` exists, and what `FAISS.load_local` would produce
if attempted (the loaded store, or a raised exception). -/
structure VectorDirState where
  indexFileExists : Bool
  loadResult : Except String (List Document)

/-- `load_faiss_index` from `src/utils.py`: `None` when no snapshot file
exists (and also when loading raises); otherwise the loaded store. -/
def load_faiss_index (st : VectorDirState) : Option (List Document) :=
  if st.indexFileExists then
    match st.loadResult with
    | .ok db => some db
    | .error _ => none
  else none

/-! ## ingestion.py — loading files

The LangChain loaders (`PyPDFLoader`, `TextLoader`) are external
collaborators; what each would produce for a given file — a list of
documents, or a raised exception — is carried as data on the file. -/

/-- The keys of the `_LOADERS` dict in `src/ingestion.py`. -/
def SUPPORTED_EXTENSIONS : List String := [".pdf", ".txt", ".md"]

/-- Model of Python `str.lower()` on `String` (ASCII fold). -/
def toLowerStr (s : String) : String := String.mk (toLowerChars s.data)

/-- One candidate file: its name, its `Path.suffix`, and the outcome the
external loader would produce for it (`Except.error` models a raised
exception such as a corrupt PDF). -/
structure SourceFile where
  name : String
  suffix : String
  loadResult : Except String (List Document)

/-- `_load_single` from `src/ingestion.py`: unsupported extensions yield
an empty batch, a raising loader is caught and logged and yields an empty
batch, a succeeding loader yields its documents. -/
def load_single (f : SourceFile) : List Document :=
  if toLowerStr f.suffix ∈ SUPPORTED_EXTENSIONS then
    match f.loadResult with
    | .ok docs => docs
    | .error _ => []
  else []

/-- `load_documents` from `src/ingestion.py`: a missing source directory
yields nothing, an empty file list yields nothing, otherwise every file is
loaded independently (`pool.map` keeps list order) and the batches are
concatenated.  The filesystem glob is abstracted as the given file list. -/
def load_documents (dirExists : Bool) (files : List SourceFile) :
    List Document :=
  if !dirExists then []
  else if files.isEmpty then []
  else (files.map load_single).flatten

/-! ## ingestion.py — URL ingestion

The four module-level regexes are modelled as recursive character-list
functions with the same matching behaviour on the payload. -/

/-- If `pat` occurs in `l`, the remainder of `l` after the first
occurrence; used to consume up to a closing tag. -/
def dropAfterSeq (pat : List Char) : List Char → Option (List Char)
  | [] => if pat.isEmpty then some [] else none
  | c :: cs =>
    if isPrefixList pat (c :: cs) then some (List.drop (pat.length - 1) cs)
    else dropAfterSeq pat cs

/-- Model of matching the regex `<TAG[^>]*>` at the head of `l` (with
`openTag` the literal `<TAG` part): on success, the remainder after the
closing `>`. -/
def parseOpenTag (openTag : List Char) (l : List Char) : Option (List Char) :=
  if isPrefixList openTag l then
    match (List.drop openTag.length l).dropWhile (fun c => c ≠ '>') with
    | '>' :: tail => some tail
    | _ => none
  else none

/-- Recursion worker for `stripBlocks`, structural on fuel; every step
consumes at least one character, so fuel `l.length` is always enough and
the fuel-exhausted branch is unreachable from `stripBlocks`. -/
def stripBlocksAux (openTag closeTag : List Char) : Nat → List Char → List Char
  | _, [] => []
  | 0, l => l
  | fuel + 1, c :: cs =>
    match parseOpenTag openTag (c :: cs) with
    | some afterOpen =>
      match dropAfterSeq closeTag afterOpen with
      | some rest => stripBlocksAux openTag closeTag fuel rest
      | none => c :: stripBlocksAux openTag closeTag fuel cs
    | none => c :: stripBlocksAux openTag closeTag fuel cs

/-- Model of `re.sub(r"<TAG[^>]*>.*?</TAG>", "", text, flags=re.S)`:
remove every leftmost block from an opening `<TAG ...>` to the nearest
following closing tag; an opening tag with no closing tag is left alone,
exactly as the regex leaves it unmatched. -/
def stripBlocks (openTag closeTag l : List Char) : List Char :=
  stripBlocksAux openTag closeTag l.length l

/-- Recursion worker for `stripTags`, structural on fuel; fuel `l.length`
is always enough. -/
def stripTagsAux : Nat → List Char → List Char
  | _, [] => []
  | 0, l => l
  | fuel + 1, c :: cs =>
    if c = '<' then
      if (cs.takeWhile (fun d => d ≠ '>')).isEmpty then c :: stripTagsAux fuel cs
      else
        match cs.dropWhile (fun d => d ≠ '>') with
        | '>' :: rest => ' ' :: stripTagsAux fuel rest
        | _ => c :: stripTagsAux fuel cs
    else c :: stripTagsAux fuel cs

/-- Model of `re.sub(r"<[^>]+>", " ", text)`: every maximal `<...>` group
with at least one non-`>` character inside becomes a single space. -/
def stripTags (l : List Char) : List Char := stripTagsAux l.length l

/-- Recursion worker for `collapseWs`, structural on fuel; fuel
`l.length` is always enough. -/
def collapseWsAux : Nat → List Char → List Char
  | _, [] => []
  | 0, l => l
  | fuel + 1, c :: cs =>
    if wsChar c then ' ' :: collapseWsAux fuel (cs.dropWhile wsChar)
    else c :: collapseWsAux fuel cs

/-- Model of `re.sub(r"\s+", " ", text)`: every maximal whitespace run
becomes a single space. -/
def collapseWs (l : List Char) : List Char := collapseWsAux l.length l

/-- The content-processing step of `ingest_url`: if the payload looks
like HTML (`"<html" in content.lower()`), strip script blocks, style
blocks and tags, collapse whitespace and strip; otherwise keep the
payload as fetched. -/
def processPayload (text : String) : List Char :=
  if containsSeq ("<html".data) (toLowerChars text.data) then
    stripChars (collapseWs (stripTags
      (stripBlocks ("<style".data) ("</style>".data)
        (stripBlocks ("<script".data) ("</script>".data) text.data))))
  else text.data

/-- Model of `urllib.parse.urlparse` for plain `scheme://host/path` URLs
without query or fragment: the netloc and path components. -/
def urlParts (url : String) : String × String :=
  match dropAfterSeq ("://".data) url.data with
  | some rest =>
    (String.mk (rest.takeWhile (fun c => c ≠ '/')),
     String.mk (rest.dropWhile (fun c => c ≠ '/')))
  | none => ("", url)

/-- The safe-filename construction in `ingest_url`: underscore the dots
of the host, underscore the slashes of the path stripped of surrounding
slashes and cut to 50 characters, and assemble `web_...txt`. -/
def mkWebFilename (url : String) : String :=
  let parts := urlParts url
  let domain := parts.1.data.map (fun c => if c = '.' then '_' else c)
  let slug := ((((parts.2.data.dropWhile (fun c => c = '/')).reverse.dropWhile
      (fun c => c = '/')).reverse).map (fun c => if c = '/' then '_' else c)).take 50
  if slug.isEmpty then String.mk ("web_".data ++ domain ++ ".txt".data)
  else String.mk ("web_".data ++ domain ++ ['_'] ++ slug ++ ".txt".data)

/-- Digit grouping of Python format `{n:,}` (used in the success message). -/
def fmtThousandsAux : List Char → List Char
  | [] => []
  | d :: ds =>
    if (d :: ds).length ≤ 3 then d :: ds
    else (d :: ds).take 3 ++ ',' :: fmtThousandsAux ((d :: ds).drop 3)
termination_by l => l.length
decreasing_by simp_all [List.length_cons]; omega

/-- Python `f"{n:,}"`: decimal digits grouped by thousands. -/
def fmtThousands (n : Nat) : String :=
  String.mk ((fmtThousandsAux (toString n).data.reverse).reverse)

/-- Outcome of `requests.get(url, ...)` + `raise_for_status`: either the
response text, or a raised `requests.RequestException` (connection error
or non-2xx status). -/
inductive FetchOutcome where
  | ok (text : String)
  | requestError (msg : String)

/-- The `(success, message)` pair returned by `ingest_url`, together with
the file write it performs on success (`data/<filename>` and its
content); `none` means no file is written. -/
structure IngestResult where
  success : Bool
  message : String
  written : Option (String × String)
  deriving DecidableEq

/-- `ingest_url` from `src/ingestion.py`, as a function of the fetch
outcome: network failures become `(False, "Network error: ...")`;
processed content that is empty or under 50 characters becomes
`(False, "Page content too short or empty.")` with no file written;
otherwise the content is saved under the URL-derived filename. -/
def ingest_url (url : String) (fetch : FetchOutcome) : IngestResult :=
  match fetch with
  | .requestError m => ⟨false, "Network error: " ++ m, none⟩
  | .ok text =>
    let content := processPayload text
    if content.isEmpty || content.length < 50 then
      ⟨false, "Page content too short or empty.", none⟩
    else
      let filename := mkWebFilename url
      ⟨true,
       "Saved as " ++ filename ++ " (" ++ fmtThousands content.length ++ " chars)",
       some (filename, String.mk content)⟩

/-! ## ingestion.py — chunking

`split_documents` delegates to LangChain's `RecursiveCharacterTextSplitter`
with `add_start_index=True`; the splitter (library code outside this
repository) is modelled here by its recursive algorithm: default
separators `"\n\n", "\n", " ", ""`, literal (non-regex) matching,
`keep_separator=True` (the separator stays glued to the front of the
following piece and pieces are merged with the empty joiner),
`strip_whitespace=True`, and length measured in characters. -/

/-- Model of `_split_text_with_regex(text, sep, keep_separator=True)` for
a non-empty literal separator: split at each occurrence, reattach the
separator to the front of the following piece, and drop empty pieces. -/
def splitWithSep (sep : List Char) (text : List Char) : List (List Char) :=
  match splitOnList sep text with
  | [] => []
  | p :: ps => (p :: ps.map (fun q => sep ++ q)).filter (fun s => !s.isEmpty)

/-- The separator-selection loop at the top of `_split_text`: the first
separator equal to `""` wins as `""`, the first separator occurring in the
text wins together with the remaining separators, and otherwise the last
separator is kept with no remaining ones. -/
def chooseSepGo (lastSep : List Char) (text : List Char) :
    List (List Char) → List Char × List (List Char)
  | [] => (lastSep, [])
  | s :: rest =>
    if s.isEmpty then ([], [])
    else if containsSeq s text then (s, rest)
    else chooseSepGo lastSep text rest

/-- The default separator list of `RecursiveCharacterTextSplitter`. -/
def DEFAULT_SEPARATORS : List (List Char) := [['\n', '\n'], ['\n'], [' '], []]

/-- Model of Python `sep.join(docs)`. -/
def joinList (sep : List Char) : List (List Char) → List Char
  | [] => []
  | [p] => p
  | p :: q :: ps => p ++ sep ++ joinList sep (q :: ps)

/-- Model of `_join_docs`: join the accumulated pieces with the
separator, strip whitespace, and drop the result when it is empty. -/
def joinDocs (sep : List Char) (docs : List (List Char)) : Option (List Char) :=
  let text := stripChars (joinList sep docs)
  if text.isEmpty then none else some text

/-- The inner `while` loop of `_merge_splits` that sheds pieces from the
front of the running window until it fits under the overlap budget.  The
model stops on an empty window; Python cannot reach that state because
`total` is invariantly the measured size of the window, hence `0` there,
falsifying the loop condition. -/
def shrinkLoop (cs ov : Nat) (sep : List Char) (dLen : Nat) :
    List (List Char) → Nat → List (List Char) × Nat
  | [], total => ([], total)
  | c :: rest, total =>
    if total > ov || (total + dLen + sep.length > cs && total > 0) then
      shrinkLoop cs ov sep dLen rest
        (total - (c.length + (if rest.isEmpty then 0 else sep.length)))
    else (c :: rest, total)

/-- The main loop of `_merge_splits`: greedily extend the current window
with the next piece; on overflow, flush the joined window into the output
and shed leading pieces down to the overlap before extending. -/
def mergeGo (cs ov : Nat) (sep : List Char) :
    List (List Char) → List (List Char) → Nat → List (List Char) → List (List Char)
  | docs, curr, total, [] => docs ++ (joinDocs sep curr).toList
  | docs, curr, total, d :: ds =>
    let len := d.length
    if total + len + (if curr.isEmpty then 0 else sep.length) > cs then
      let docs1 := if curr.isEmpty then docs else docs ++ (joinDocs sep curr).toList
      let shrunk := if curr.isEmpty then (curr, total) else shrinkLoop cs ov sep len curr total
      mergeGo cs ov sep docs1 (shrunk.1 ++ [d])
        (shrunk.2 + len + (if shrunk.1.isEmpty then 0 else sep.length)) ds
    else
      mergeGo cs ov sep docs (curr ++ [d])
        (total + len + (if curr.isEmpty then 0 else sep.length)) ds

/-- `_merge_splits(splits, separator)` with chunk size `cs` and chunk
overlap `ov`. -/
def merge_splits (cs ov : Nat) (sep : List Char) (splits : List (List Char)) :
    List (List Char) :=
  mergeGo cs ov sep [] [] 0 splits

/-- The per-split loop of `_split_text`: pieces shorter than the chunk
size are batched and merged; an oversized piece first flushes the batch,
then is either recursively re-split (when finer separators remain) or
emitted as-is.  `recur` is the recursive call on the remaining
separators, absent when none remain. -/
def processSplits (cs ov : Nat) (recur : Option (List Char → List (List Char))) :
    List (List Char) → List (List Char) → List (List Char)
  | [], good => if good.isEmpty then [] else merge_splits cs ov [] good
  | s :: rest, good =>
    if s.length < cs then processSplits cs ov recur rest (good ++ [s])
    else
      (if good.isEmpty then [] else merge_splits cs ov [] good)
        ++ (match recur with | none => [s] | some f => f s)
        ++ processSplits cs ov recur rest []

/-- `_split_text(text, separators)` with explicit fuel bounding the
recursion depth; each recursive call uses a strict suffix of the
separator list, so depth is bounded by the list length and the fuel
`DEFAULT_SEPARATORS.length + 1` used below is never exhausted. -/
def splitTextFuel (cs ov : Nat) : Nat → List (List Char) → List Char → List (List Char)
  | 0, _, _ => []
  | fuel + 1, seps, text =>
    let chosen := chooseSepGo (seps.getLastD []) text seps
    let splits :=
      if chosen.1.isEmpty then (text.map (fun c => [c])).filter (fun s => !s.isEmpty)
      else splitWithSep chosen.1 text
    processSplits cs ov
      (if chosen.2.isEmpty then none else some (splitTextFuel cs ov fuel chosen.2))
      splits []

/-- `split_text` of the splitter with the default separators. -/
def split_text (cs ov : Nat) (text : List Char) : List (List Char) :=
  splitTextFuel cs ov (DEFAULT_SEPARATORS.length + 1) DEFAULT_SEPARATORS text

/-- Index of the first occurrence of `pat` in `l`, if any. -/
def findIdx? (pat : List Char) : List Char → Option Nat
  | [] => if pat.isEmpty then some 0 else none
  | c :: cs =>
    if isPrefixList pat (c :: cs) then some 0
    else (findIdx? pat cs).map (· + 1)

/-- Model of Python `text.find(pat, start)` for `start ≤ len(text)`:
the smallest index `≥ start` where `pat` occurs, else `-1`. -/
def pyFind (text pat : List Char) (start : Nat) : Int :=
  match findIdx? pat (text.drop start) with
  | some i => Int.ofNat (start + i)
  | none => -1

/-- The chunk loop of `create_documents` for one source text with
`add_start_index=True`: each chunk records where it was found, searching
from the previous index plus previous chunk length minus the overlap
(clamped at zero). -/
def createGo (ov : Nat) (text : List Char) (meta : Metadata) :
    List (List Char) → Int → Nat → List Document
  | [], _, _ => []
  | chunk :: rest, index, prevLen =>
    let offset : Int := index + (prevLen : Int) - (ov : Int)
    let idx : Int := pyFind text chunk offset.toNat
    ⟨String.mk chunk, { meta with startIndex := some idx }⟩
      :: createGo ov text meta rest idx chunk.length

/-- `split_documents` from `src/ingestion.py`: an empty document list is
returned unchanged, otherwise each document's content is split and every
chunk becomes a document carrying a copy of the source metadata plus its
start index. -/
def split_documents (cs ov : Nat) (docs : List Document) : List Document :=
  if docs.isEmpty then []
  else
    (docs.map (fun d => createGo ov d.pageContent.data d.metadata
      (split_text cs ov d.pageContent.data) 0 0)).flatten

/-! ## Concrete instances used by witnesses -/

/-- A stored chunk originating from `A.txt`. -/
def docAlpha : Document := ⟨"alpha content", ⟨some "A.txt", some 0, none, none⟩⟩

/-- A stored chunk originating from `B.txt`. -/
def docBeta : Document := ⟨"beta content", ⟨some "B.txt", some 0, none, none⟩⟩

/-- A relevance function that ranks the `B.txt` chunk far above the
`A.txt` chunk. -/
def scoreBetaHigh : Document → ℚ :=
  fun d => if d.metadata.source = some "B.txt" then 9 else 1

/-- A loadable text file whose loader succeeds with one document. -/
def goodFile : SourceFile := ⟨"a.txt", ".txt", .ok [docAlpha]⟩

/-- A corrupt PDF whose loader raises. -/
def badFile : SourceFile := ⟨"b.pdf", ".pdf", .error "corrupt PDF"⟩

/-- A file with an unsupported extension. -/
def oddFile : SourceFile := ⟨"c.docx", ".docx", .ok [docBeta]⟩

/-- A 500-character source content without surrounding whitespace. -/
def plain500 : String := String.mk (List.replicate 500 'a')

/-- A 500-character source content ending in a newline, as ordinary text
files do. -/
def newline500 : String := String.mk (List.replicate 499 'a' ++ ['\n'])

/-- The content of `newline500` with the trailing newline stripped. -/
def stripped499 : String := String.mk (List.replicate 499 'a')

/-- Source metadata of the three Scenario A documents. -/
def metaA : Metadata := ⟨some "A.txt", none, none, none⟩

def metaB : Metadata := ⟨some "B.txt", none, none, none⟩

def metaC : Metadata := ⟨some "C.txt", none, none, none⟩

/-- A fetched page consisting of 20 whitespace characters. -/
def twentySpaces : String := String.mk (List.replicate 20 ' ')

/-! ## Theorems: context assembly (claims C3, C4, C10) -/

/-- Reassociation of a cons with a trailing singleton. -/
theorem cons_append_singleton {α : Type} (a b : α) (l : List α) :
    a :: (l ++ [b]) = (a :: l) ++ [b] := by simp

/-- The normal form of `_build_messages`: one system message, the
windowed history, one final human message. -/
theorem build_messages_eq (query : String) (docs : List Document)
    (ch : Option (List Turn)) (sp : Option String) :
    build_messages query docs ch sp
      = Message.system
          (match sp with
           | none => DEFAULT_SYSTEM_PROMPT
           | some s => if s = "" then DEFAULT_SYSTEM_PROMPT else s)
        :: (history_messages ch
            ++ [Message.human (contextTemplate (format_docs docs)
                 ++ "\n\nQuestion: " ++ query)]) := by
  simp [build_messages]

/-- No history-derived message is a system message. -/
theorem history_messages_no_system (ch : Option (List Turn)) :
    ∀ m ∈ history_messages ch, m.isSystemMsg = false := by
  intro m hm
  match ch with
  | none => simp [history_messages] at hm
  | some h =>
    simp only [history_messages] at hm
    split at hm
    · simp at hm
    · obtain ⟨t, _, hft⟩ := List.mem_filterMap.mp hm
      split_ifs at hft <;> cases hft <;> rfl

/-- The history segment never exceeds the fixed window of 6 turns. -/
theorem history_messages_length_le (ch : Option (List Turn)) :
    (history_messages ch).length ≤ 6 := by
  match ch with
  | none => simp [history_messages]
  | some h =>
    simp only [history_messages]
    split
    · simp
    · calc (List.filterMap _ (h.drop (h.length - 6))).length
          ≤ (h.drop (h.length - 6)).length := List.length_filterMap_le _ _
        _ = h.length - (h.length - 6) := List.length_drop _ _
        _ ≤ 6 := by omega

/-- C3: for every query, retrieved-result list, history and prompt
configuration, the assembled message list begins with exactly one system
message, ends with a single user message whose content ends in the
literal question text, and the history segment between them is the
filtered window and never exceeds 6 messages. -/
theorem build_messages_shape (query : String) (docs : List Document)
    (ch : Option (List Turn)) (sp : Option String) :
    ∃ p c,
      (build_messages query docs ch sp).head? = some (Message.system p) ∧
      (build_messages query docs ch sp).filter Message.isSystemMsg
        = [Message.system p] ∧
      (build_messages query docs ch sp).getLast? = some (Message.human c) ∧
      (∃ pre, c = pre ++ query) ∧
      ((build_messages query docs ch sp).drop 1).dropLast = history_messages ch ∧
      (history_messages ch).length ≤ 6 := by
  rw [build_messages_eq]
  refine ⟨_, contextTemplate (format_docs docs) ++ "\n\nQuestion: " ++ query,
    rfl, ?_, ?_,
    ⟨contextTemplate (format_docs docs) ++ "\n\nQuestion: ", rfl⟩,
    ?_, history_messages_length_le ch⟩
  · have h1 : (history_messages ch).filter Message.isSystemMsg = [] :=
      List.filter_eq_nil_iff.mpr (by
        intro x hx
        simp [history_messages_no_system ch x hx])
    simp [List.filter_cons, List.filter_append, h1, Message.isSystemMsg]
  · rw [cons_append_singleton]
    exact List.getLast?_concat _
  · simp [List.dropLast_concat]

/-- C4: with an empty retrieved-result list the final user message still
carries the delimited context block, and the block states explicitly that
no documents were retrieved. -/
theorem build_messages_empty_docs (query : String) (ch : Option (List Turn))
    (sp : Option String) :
    (build_messages query [] ch sp).getLast?
      = some (Message.human
          ("=== RETRIEVED DOCUMENT CONTEXT ===\n\n(No documents were retrieved.)\n\n=== END OF CONTEXT ==="
            ++ "\n\nQuestion: " ++ query)) := by
  rw [build_messages_eq, cons_append_singleton, List.getLast?_concat]
  rfl

/-- The filterMap performed by the history loop equals keeping exactly
the user/assistant turns, in order, with their recorded roles. -/
theorem filterMap_turns_eq (l : List Turn) :
    (l.filterMap (fun m =>
        if m.role = "user" then some (Message.human m.content)
        else if m.role = "assistant" then some (Message.ai m.content)
        else none))
      = (l.filter (fun t => decide (t.role = "user" ∨ t.role = "assistant"))).map
          (fun t => if t.role = "user" then Message.human t.content
                    else Message.ai t.content) := by
  induction l with
  | nil => rfl
  | cons t ts ih =>
    simp only [List.filterMap_cons, List.filter_cons]
    by_cases hu : t.role = "user"
    · simp [hu, ih]
    · by_cases ha : t.role = "assistant"
      · simp [hu, ha, ih]
      · simp [hu, ha, ih]

/-- C10: any turn in the most-recent-6 window whose role is neither
"user" nor "assistant" is silently dropped from the assembled messages,
while the kept turns appear in their original relative order with their
recorded roles. -/
theorem history_window_drops_unknown_roles (query : String)
    (docs : List Document) (h : List Turn) (sp : Option String) :
    ((build_messages query docs (some h) sp).drop 1).dropLast
      = ((h.drop (h.length - 6)).filter
          (fun t => decide (t.role = "user" ∨ t.role = "assistant"))).map
          (fun t => if t.role = "user" then Message.human t.content
                    else Message.ai t.content) := by
  rw [build_messages_eq]
  simp only [List.drop_succ_cons, List.drop_zero, List.dropLast_concat]
  simp only [history_messages]
  split
  · rename_i hemp
    rw [List.isEmpty_iff] at hemp
    subst hemp
    rfl
  · exact filterMap_turns_eq _

/-! ## Theorems: follow-up generation (claim C9) -/

theorem dropWhile_idem {α : Type} (p : α → Bool) (l : List α) :
    (l.dropWhile p).dropWhile p = l.dropWhile p := by
  induction l with
  | nil => rfl
  | cons a l ih =>
    by_cases h : p a
    · simp [List.dropWhile_cons, h, ih]
    · simp [List.dropWhile_cons, h]

theorem dropWhile_head_false {α : Type} {p : α → Bool} {l : List α}
    {c : α} {cs : List α} (h : l.dropWhile p = c :: cs) : p c = false := by
  induction l with
  | nil => simp at h
  | cons a l ih =>
    by_cases hp : p a
    · rw [List.dropWhile_cons] at h
      simp only [hp, if_true] at h
      exact ih h
    · rw [List.dropWhile_cons] at h
      simp only [hp, if_false] at h
      cases h
      simpa using hp

/-- The stripped list is a prefix of the leading-whitespace-free list. -/
theorem stripChars_prefix (l : List Char) :
    stripChars l <+: l.dropWhile wsChar := by
  have hsuf : (l.dropWhile wsChar).reverse.dropWhile wsChar
      <:+ (l.dropWhile wsChar).reverse := List.dropWhile_suffix wsChar
  have := List.reverse_prefix.mpr hsuf
  rwa [List.reverse_reverse] at this

/-- The stripped list has no leading whitespace. -/
theorem stripChars_dropWhile (l : List Char) :
    (stripChars l).dropWhile wsChar = stripChars l := by
  cases hBeq : stripChars l with
  | nil => rfl
  | cons c t =>
    have hpre := stripChars_prefix l
    rw [hBeq] at hpre
    obtain ⟨r, hr⟩ := hpre
    have hAc : l.dropWhile wsChar = c :: (t ++ r) := by
      rw [← hr]
      simp
    have hcfalse : wsChar c = false := dropWhile_head_false hAc
    simp [List.dropWhile_cons, hcfalse]

/-- Stripping is idempotent. -/
theorem stripChars_idem (l : List Char) :
    stripChars (stripChars l) = stripChars l := by
  have hBrev : (stripChars l).reverse.dropWhile wsChar = (stripChars l).reverse := by
    have h1 : (stripChars l).reverse
        = (l.dropWhile wsChar).reverse.dropWhile wsChar := by
      unfold stripChars
      rw [List.reverse_reverse]
    rw [h1]
    exact dropWhile_idem wsChar _
  show (((stripChars l).dropWhile wsChar).reverse.dropWhile wsChar).reverse
      = stripChars l
  rw [stripChars_dropWhile, hBrev, List.reverse_reverse]

/-- Idempotence of the Python strip model on strings. -/
theorem pyStrip_idem (s : String) : pyStrip (pyStrip s) = pyStrip s := by
  unfold pyStrip
  rw [show (String.mk (stripChars s.data)).data = stripChars s.data from rfl]
  rw [stripChars_idem]

/-- C9: the follow-up generator returns the model response split on line
breaks, trimmed, blank lines dropped and truncated to at most 3 entries,
and every failure of the model call yields the empty list. -/
theorem generate_followups_spec (llm : List Message → Except String String)
    (query response : String) :
    (generate_followups llm query response).length ≤ 3 ∧
    (∀ s ∈ generate_followups llm query response, pyStrip s = s ∧ s ≠ "") ∧
    (∀ e, llm (followupPrompt query response) = Except.error e →
        generate_followups llm query response = []) ∧
    (∀ content, llm (followupPrompt query response) = Except.ok content →
        generate_followups llm query response
          = ((pySplit (pyStrip content) "\n").filterMap (fun q =>
              if pyStrip q = "" then none else some (pyStrip q))).take 3) := by
  refine ⟨?_, ?_, ?_, ?_⟩
  · rcases hllm : llm (followupPrompt query response) with m | content
    · simp [generate_followups, hllm]
    · simp only [generate_followups, hllm]
      rw [List.length_take]
      exact min_le_left _ _
  · intro s hs
    rcases hllm : llm (followupPrompt query response) with m | content
    · simp [generate_followups, hllm] at hs
    · simp only [generate_followups, hllm] at hs
      have hs' := List.take_subset 3 _ hs
      obtain ⟨q, _, hq⟩ := List.mem_filterMap.mp hs'
      by_cases hqs : pyStrip q = ""
      · simp [hqs] at hq
      · simp only [hqs, if_false] at hq
        cases hq
        exact ⟨pyStrip_idem q, hqs⟩
  · intro e he
    simp [generate_followups, he]
  · intro content hc
    simp [generate_followups, hc]

/-- Witness for C9: a concrete model reply with extra whitespace, a blank
line and four candidate lines yields exactly the first three trimmed
non-blank lines, and a raising model yields the empty list. -/
theorem generate_followups_spec_witness :
    generate_followups (fun _ => Except.ok " Q1 \n\nQ2\nQ3\nQ4") "q" "a"
      = ["Q1", "Q2", "Q3"] ∧
    generate_followups (fun _ => Except.error "boom") "q" "a" = [] := by
  constructor
  · have h := (generate_followups_spec (fun _ => Except.ok " Q1 \n\nQ2\nQ3\nQ4")
      "q" "a").2.2.2 " Q1 \n\nQ2\nQ3\nQ4" rfl
    rw [h]
    decide
  · exact (generate_followups_spec (fun _ => Except.error "boom") "q" "a").2.2.1
      "boom" rfl

/-! ## Theorems: retrieval (claims C1, C2) -/

/-- The scored search result is sorted by non-increasing score. -/
theorem sim_search_sorted (score : Document → ℚ) (db : List Document)
    (k : Nat) (fs : Option String) :
    List.Sorted scoreGE (similarity_search_with_relevance_scores score db k fs) := by
  unfold similarity_search_with_relevance_scores
  exact (List.sorted_insertionSort scoreGE _).sublist (List.take_sublist _ _)

/-- The scored search returns at most `k` results. -/
theorem sim_search_length (score : Document → ℚ) (db : List Document)
    (k : Nat) (fs : Option String) :
    (similarity_search_with_relevance_scores score db k fs).length ≤ k := by
  unfold similarity_search_with_relevance_scores
  rw [List.length_take]
  exact min_le_left _ _

/-- Attaching the scores to the metadata and then reading them back
yields exactly the score column. -/
theorem map_attach_scores (l : List (Document × ℚ)) :
    ((l.map (fun p =>
        ({ p.1 with metadata := { p.1.metadata with score := some p.2 } } : Document))).filterMap
      (fun d => d.metadata.score)) = l.map (fun p => p.2) := by
  induction l with
  | nil => rfl
  | cons p ps ih => simp [List.filterMap_cons, ih]

/-- Rounding to four decimal places is monotone. -/
theorem roundTo4_mono {a b : ℚ} (h : a ≤ b) : roundTo4 a ≤ roundTo4 b := by
  unfold roundTo4
  have h1 : round (a * 10000) ≤ round (b * 10000) := by
    rw [round_eq, round_eq]
    exact Int.floor_le_floor (by linarith)
  have h2 : ((round (a * 10000) : ℤ) : ℚ) ≤ ((round (b * 10000) : ℤ) : ℚ) := by
    exact_mod_cast h1
  linarith

/-- C2: for every query (abstracted as its relevance function) and every
k, `retrieve_with_scores` returns at most k documents sorted by
non-increasing score, and so does `semantic_search`. -/
theorem retrieve_topk_sorted (score : Document → ℚ) (db : List Document)
    (odb : Option (List Document)) (k : Nat) (filter_path : Option String) :
    (retrieve_with_scores score db k filter_path).length ≤ k ∧
    List.Sorted (· ≥ ·)
      ((retrieve_with_scores score db k filter_path).filterMap
        (fun d => d.metadata.score)) ∧
    (semantic_search odb score k filter_path).length ≤ k ∧
    List.Sorted (· ≥ ·)
      ((semantic_search odb score k filter_path).map (fun r => r.score)) := by
  refine ⟨?_, ?_, ?_, ?_⟩
  · unfold retrieve_with_scores
    rw [List.length_map]
    exact sim_search_length score db k filter_path
  · unfold retrieve_with_scores
    rw [map_attach_scores]
    exact (sim_search_sorted score db k filter_path).map _ (fun a b hab => hab)
  · rcases odb with _ | store
    · simp [semantic_search]
    · simp only [semantic_search]
      rw [List.length_map]
      exact sim_search_length score store k filter_path
  · rcases odb with _ | store
    · simp [semantic_search]
    · simp only [semantic_search, List.map_map]
      exact (sim_search_sorted score store k filter_path).map _
        (fun a b hab => roundTo4_mono hab)

/-- C1: a filtered retrieval returns only documents whose source
metadata equals the filter, and the filter is applied before top-k
selection: every filter-matching stored chunk is either among the
returned scored pairs or scores no higher than every returned pair. -/
theorem retrieve_filter_before_topk (score : Document → ℚ)
    (db : List Document) (k : Nat) (X : String) :
    (∀ d ∈ retrieve_with_scores score db k (some X),
        d.metadata.source = some X) ∧
    (∀ d ∈ db, d.metadata.source = some X →
      (d, score d) ∈ similarity_search_with_relevance_scores score db k (some X) ∨
      ∀ p ∈ similarity_search_with_relevance_scores score db k (some X),
        score d ≤ p.2) := by
  have hdef : similarity_search_with_relevance_scores score db k (some X)
      = (List.insertionSort scoreGE
          ((db.filter (fun d => decide (d.metadata.source = some X))).map
            (fun d => (d, score d)))).take k := rfl
  constructor
  · intro d hd
    unfold retrieve_with_scores at hd
    obtain ⟨p, hp, hpd⟩ := List.mem_map.mp hd
    rw [hdef] at hp
    have hp2 := List.take_subset _ _ hp
    have hp3 := (List.perm_insertionSort scoreGE _).subset hp2
    obtain ⟨d0, hd0, hd0p⟩ := List.mem_map.mp hp3
    have hsrc := of_decide_eq_true (List.mem_filter.mp hd0).2
    rw [← hpd, ← hd0p]
    exact hsrc
  · intro d hd hsrc
    have hmem : (d, score d)
        ∈ List.insertionSort scoreGE
            ((db.filter (fun d => decide (d.metadata.source = some X))).map
              (fun d => (d, score d))) := by
      apply ((List.perm_insertionSort scoreGE _).mem_iff).mpr
      exact List.mem_map_of_mem _ (List.mem_filter.mpr ⟨hd, by simp [hsrc]⟩)
    set l := List.insertionSort scoreGE
        ((db.filter (fun d => decide (d.metadata.source = some X))).map
          (fun d => (d, score d))) with hl
    have hsplit : l = l.take k ++ l.drop k := (List.take_append_drop k l).symm
    rw [hsplit] at hmem
    rcases List.mem_append.mp hmem with h | h
    · left
      rw [hdef]
      exact h
    · right
      intro p hp
      have hsorted : List.Pairwise scoreGE l := List.sorted_insertionSort scoreGE _
      rw [hsplit] at hsorted
      rw [hdef] at hp
      exact (List.pairwise_append.mp hsorted).2.2 p hp (d, score d) h

/-- Witness for C1: with a store holding one `A.txt` chunk and one
`B.txt` chunk where the `B.txt` chunk scores far higher, a top-1 query
filtered to `A.txt` returns the `A.txt` chunk, whose source the theorem
pins to `A.txt`. -/
theorem retrieve_filter_before_topk_witness :
    ({ docAlpha with
        metadata := { docAlpha.metadata with score := some 1 } } : Document).metadata.source
      = some "A.txt" :=
  (retrieve_filter_before_topk scoreBetaHigh [docAlpha, docBeta] 1 "A.txt").1
    _ (by decide)

/-! ## Theorems: index loading (claim C5) -/

/-- C5: loading with no snapshot on disk yields the absent sentinel
`none`, which differs from every loaded store — in particular from the
empty index `some []` — and the branching caller `semantic_search`
returns no results without touching the store. -/
theorem load_absent_sentinel (st : VectorDirState)
    (h : st.indexFileExists = false) (score : Document → ℚ) (k : Nat)
    (fp : Option String) :
    load_faiss_index st = none ∧
    (∀ db : List Document, load_faiss_index st ≠ some db) ∧
    semantic_search (load_faiss_index st) score k fp = [] := by
  have h1 : load_faiss_index st = none := by
    unfold load_faiss_index
    rw [h]
    simp
  refine ⟨h1, ?_, ?_⟩
  · intro db
    rw [h1]
    simp
  · rw [h1]
    rfl

/-- Witness for C5: a directory state with no `index.faiss` yields the
sentinel, and searching against it yields nothing. -/
theorem load_absent_sentinel_witness :
    load_faiss_index ⟨false, Except.ok [docAlpha]⟩ = none ∧
    semantic_search (load_faiss_index ⟨false, Except.ok [docAlpha]⟩)
      (fun _ => 0) 5 none = [] :=
  ⟨(load_absent_sentinel ⟨false, Except.ok [docAlpha]⟩ rfl (fun _ => 0) 5 none).1,
   (load_absent_sentinel ⟨false, Except.ok [docAlpha]⟩ rfl (fun _ => 0) 5 none).2.2⟩

/-! ## Theorems: URL ingestion (claim C6) -/

/-- C6: whenever the fetched payload processes (with HTML stripping when
applicable) to fewer than 50 characters — in particular to the empty
string — `ingest_url` fails with the "too short" message and writes no
file. -/
theorem ingest_url_too_short (url text : String)
    (h : (processPayload text).length < 50) :
    ingest_url url (FetchOutcome.ok text)
      = ⟨false, "Page content too short or empty.", none⟩ := by
  unfold ingest_url
  have hcond : ((processPayload text).isEmpty
      || decide ((processPayload text).length < 50)) = true := by
    simp [h]
  simp only [hcond, if_true]

/-- Witness for C6: a page of 20 whitespace characters is rejected as too
short and no file is written. -/
theorem ingest_url_too_short_witness :
    ingest_url "https://example.com/page" (FetchOutcome.ok twentySpaces)
      = ⟨false, "Page content too short or empty.", none⟩ :=
  ingest_url_too_short "https://example.com/page" twentySpaces (by decide)

/-! ## Theorems: per-file load isolation (claim C8) -/

/-- `load_documents` over an existing directory is the concatenation of
the per-file batches. -/
theorem load_documents_eq (files : List SourceFile) :
    load_documents true files = (files.map load_single).flatten := by
  unfold load_documents
  cases files with
  | nil => simp
  | cons f fs => simp

/-- C8: loading is isolated per file — a file with an unsupported
extension or a raising loader contributes an empty batch, and the
documents loaded from all other files are exactly what they would be
without it. -/
theorem load_single_isolated (fs1 fs2 : List SourceFile) (b : SourceFile)
    (hb : toLowerStr b.suffix ∉ SUPPORTED_EXTENSIONS
      ∨ ∃ e, b.loadResult = Except.error e) :
    load_single b = [] ∧
    load_documents true (fs1 ++ b :: fs2)
      = load_documents true fs1 ++ load_documents true fs2 := by
  have h1 : load_single b = [] := by
    unfold load_single
    rcases hb with hunsupported | ⟨e, herr⟩
    · rw [if_neg hunsupported]
    · split
      · rw [herr]
      · rfl
  refine ⟨h1, ?_⟩
  rw [load_documents_eq, load_documents_eq, load_documents_eq]
  rw [List.map_append, List.map_cons, h1, List.flatten_append]
  simp

/-- Witness for C8: a batch of a good text file, a corrupt PDF and an
unsupported extension loads exactly the good file's documents. -/
theorem load_single_isolated_witness :
    load_single badFile = [] ∧
    load_documents true [goodFile, badFile, oddFile]
      = load_documents true [goodFile] ++ load_documents true [oddFile] ∧
    load_documents true [goodFile, badFile, oddFile] = [docAlpha] :=
  ⟨(load_single_isolated [goodFile] [oddFile] badFile
      (Or.inr ⟨"corrupt PDF", rfl⟩)).1,
   (load_single_isolated [goodFile] [oddFile] badFile
      (Or.inr ⟨"corrupt PDF", rfl⟩)).2,
   by decide⟩

/-! ## Theorems: chunking (claim C7) -/

/-- Joining with the empty separator is concatenation. -/
theorem joinList_nil_sep : ∀ L : List (List Char), joinList [] L = L.flatten
  | [] => rfl
  | [p] => by simp [joinList]
  | p :: q :: ps => by
    rw [joinList, joinList_nil_sep (q :: ps)]
    simp

/-- Dropping empty pieces does not change the concatenation. -/
theorem flatten_filter_nonempty (L : List (List Char)) :
    (L.filter (fun s => !s.isEmpty)).flatten = L.flatten := by
  induction L with
  | nil => rfl
  | cons p ps ih =>
    by_cases hp : p.isEmpty
    · rw [List.isEmpty_iff] at hp
      subst hp
      simpa using ih
    · simp only [List.filter_cons, hp, Bool.not_false, if_true]
      simp [ih]

/-- The split worker never returns an empty piece list. -/
theorem splitOnAuxF_ne_nil (sep : List Char) :
    ∀ fuel l, splitOnAuxF sep fuel l ≠ [] := by
  intro fuel l
  match fuel, l with
  | _, [] => simp [splitOnAuxF]
  | 0, c :: cs => simp [splitOnAuxF]
  | fuel + 1, c :: cs =>
    unfold splitOnAuxF
    split
    · simp
    · split <;> simp

/-- A verified prefix decomposes the list. -/
theorem isPrefixList_append : ∀ (sep l : List Char),
    isPrefixList sep l = true → l = sep ++ l.drop sep.length := by
  intro sep
  induction sep with
  | nil => intro l _; simp
  | cons a as ih =>
    intro l h
    cases l with
    | nil => simp [isPrefixList] at h
    | cons b bs =>
      simp only [isPrefixList, Bool.and_eq_true, decide_eq_true_eq] at h
      obtain ⟨hab, hpre⟩ := h
      subst hab
      have := ih bs hpre
      simp only [List.length_cons, List.drop_succ_cons, List.cons_append]
      exact congrArg (a :: ·) this

/-- A list is a prefix of itself. -/
theorem isPrefixList_refl : ∀ l : List Char, isPrefixList l l = true := by
  intro l
  induction l with
  | nil => rfl
  | cons a as ih => simp [isPrefixList, ih]

/-- Joining after consing a character onto the first piece. -/
theorem joinList_cons_head (sep : List Char) (c : Char) (p : List Char) :
    ∀ ps, joinList sep ((c :: p) :: ps) = c :: joinList sep (p :: ps) := by
  intro ps
  cases ps with
  | nil => rfl
  | cons q qs => simp [joinList]

/-- Joining after prepending a list onto the first piece. -/
theorem joinList_append_head (sep x : List Char) (p : List Char) :
    ∀ ps, joinList sep ((x ++ p) :: ps) = x ++ joinList sep (p :: ps) := by
  intro ps
  cases ps with
  | nil => rfl
  | cons q qs => simp [joinList]

/-- Splitting and rejoining with the separator restores the input. -/
theorem joinList_splitOnAuxF (sep : List Char) :
    ∀ fuel l, l.length ≤ fuel → joinList sep (splitOnAuxF sep fuel l) = l := by
  intro fuel
  induction fuel with
  | zero =>
    intro l hl
    have : l = [] := List.length_eq_zero.mp (Nat.le_zero.mp hl)
    subst this
    rfl
  | succ fuel ih =>
    intro l hl
    cases l with
    | nil => rfl
    | cons c cs =>
      rw [splitOnAuxF]
      split
      · rename_i hcond
        simp only [Bool.and_eq_true, Bool.not_eq_true'] at hcond
        obtain ⟨hsep, hpre⟩ := hcond
        have hrest : joinList sep (splitOnAuxF sep fuel (List.drop (sep.length - 1) cs)) = List.drop (sep.length - 1) cs := by
          apply ih
          have := List.length_drop (sep.length - 1) cs
          simp only [List.length_cons] at hl
          omega
        cases hsplit : splitOnAuxF sep fuel (List.drop (sep.length - 1) cs) with
        | nil => exact absurd hsplit (splitOnAuxF_ne_nil sep fuel _)
        | cons p ps =>
          rw [hsplit] at hrest
          rw [show joinList sep ([] :: p :: ps) = [] ++ sep ++ joinList sep (p :: ps) from rfl]
          rw [hrest]
          have hdecomp := isPrefixList_append sep (c :: cs) hpre
          cases sep with
          | nil => simp at hsep
          | cons s0 s' =>
            simp only [List.length_cons, List.drop_succ_cons] at hdecomp
            simp only [List.nil_append, List.length_cons, Nat.add_sub_cancel,
              List.cons_append]
            exact hdecomp.symm
      · cases hsplit : splitOnAuxF sep fuel cs with
        | nil => exact absurd hsplit (splitOnAuxF_ne_nil sep fuel cs)
        | cons p ps =>
          rw [joinList_cons_head]
          have : joinList sep (splitOnAuxF sep fuel cs) = cs := by
            apply ih
            simp only [List.length_cons] at hl
            omega
          rw [hsplit] at this
          rw [this]

/-- Concatenating the keep-separator pieces restores the original. -/
theorem flatten_keep_eq_joinList (sep : List Char) :
    ∀ (p : List Char) (ps : List (List Char)),
      (p :: ps.map (fun q => sep ++ q)).flatten = joinList sep (p :: ps) := by
  intro p ps
  induction ps generalizing p with
  | nil => simp [joinList]
  | cons q qs ih =>
    rw [List.map_cons, List.flatten_cons]
    rw [ih (sep ++ q)]
    rw [joinList_append_head]
    cases qs with
    | nil => simp [joinList]
    | cons r rs => simp [joinList]

/-- `splitWithSep` pieces concatenate back to the text. -/
theorem splitWithSep_flatten (sep text : List Char) :
    (splitWithSep sep text).flatten = text := by
  unfold splitWithSep splitOnList
  cases hsplit : splitOnAuxF sep text.length text with
  | nil => exact absurd hsplit (splitOnAuxF_ne_nil sep _ _)
  | cons p ps =>
    rw [flatten_filter_nonempty, flatten_keep_eq_joinList]
    have := joinList_splitOnAuxF sep text.length text (Nat.le_refl _)
    rw [hsplit] at this
    exact this

/-- The single-character pieces concatenate back to the text. -/
theorem flatten_singletons (text : List Char) :
    ((text.map (fun c => [c])).filter (fun s => !s.isEmpty)).flatten = text := by
  rw [flatten_filter_nonempty]
  induction text with
  | nil => rfl
  | cons c cs ih => simp [ih]

/-- A member of a piece list is no longer than the concatenation. -/
theorem mem_length_le_flatten {s : List Char} {L : List (List Char)}
    (hs : s ∈ L) : s.length ≤ L.flatten.length :=
  (List.sublist_flatten_of_mem hs).length_le

/-- When nothing ever overflows the chunk size, merging produces the
single joined window. -/
theorem mergeGo_no_overflow (cs ov : Nat) :
    ∀ (ds docs curr : List (List Char)) (total : Nat),
      total = curr.flatten.length → total + ds.flatten.length ≤ cs →
      mergeGo cs ov [] docs curr total ds
        = docs ++ (joinDocs [] (curr ++ ds)).toList := by
  intro ds
  induction ds with
  | nil =>
    intro docs curr total _ _
    simp [mergeGo]
  | cons d ds ih =>
    intro docs curr total htot hbound
    rw [mergeGo]
    have hb2 : total + d.length + ds.flatten.length ≤ cs := by
      simp only [List.flatten_cons, List.length_append] at hbound
      omega
    have hno : ¬ (total + d.length + (if curr.isEmpty then 0 else ([] : List Char).length) > cs) := by
      simp only [List.length_nil, ite_self]
      omega
    rw [if_neg hno]
    simp only [List.length_nil, ite_self, Nat.add_zero]
    have hnew : total + d.length = (curr ++ [d]).flatten.length := by
      rw [List.flatten_append]
      simp [htot]
    rw [ih docs (curr ++ [d]) (total + d.length) hnew hb2]
    rw [List.append_assoc]
    simp

/-- When every piece is short, processing batches everything into one
merge call. -/
theorem processSplits_all_good (cs ov : Nat)
    (recur : Option (List Char → List (List Char))) :
    ∀ (splits good : List (List Char)), (∀ s ∈ splits, s.length < cs) →
      processSplits cs ov recur splits good
        = if (good ++ splits).isEmpty then []
          else merge_splits cs ov [] (good ++ splits) := by
  intro splits
  induction splits with
  | nil =>
    intro good _
    simp [processSplits]
  | cons s rest ih =>
    intro good hgood
    simp only [processSplits]
    rw [if_pos (hgood s (List.mem_cons_self s rest))]
    rw [ih (good ++ [s]) (fun x hx => hgood x (List.mem_cons_of_mem s hx))]
    simp [List.append_assoc]

/-- The core single-chunk fact: a text shorter than the chunk size whose
strip is non-empty splits into exactly its stripped self, whatever the
separator list. -/
theorem splitTextFuel_small (cs ov : Nat) (fuel : Nat)
    (seps : List (List Char)) (text : List Char)
    (hlen : text.length < cs) (hne : stripChars text ≠ []) :
    splitTextFuel cs ov (fuel + 1) seps text = [stripChars text] := by
  rw [splitTextFuel]
  have htextne : text ≠ [] := by
    intro h
    subst h
    exact hne rfl
  set sep := (chooseSepGo (seps.getLastD []) text seps).1 with hsep
  have hsplits :
      (if sep.isEmpty then (text.map (fun c => [c])).filter (fun s => !s.isEmpty)
       else splitWithSep sep text).flatten = text := by
    split
    · exact flatten_singletons text
    · exact splitWithSep_flatten sep text
  set splits := (if sep.isEmpty then (text.map (fun c => [c])).filter (fun s => !s.isEmpty)
       else splitWithSep sep text) with hsplitsdef
  have hgood : ∀ s ∈ splits, s.length < cs := by
    intro s hs
    have h1 : s.length ≤ splits.flatten.length := mem_length_le_flatten hs
    rw [hsplits] at h1
    omega
  rw [processSplits_all_good cs ov _ splits [] hgood]
  have hsne : splits ≠ [] := by
    intro h
    rw [h] at hsplits
    exact htextne hsplits.symm
  rw [List.nil_append]
  rw [if_neg (by simpa [List.isEmpty_iff] using hsne)]
  unfold merge_splits
  rw [mergeGo_no_overflow cs ov splits [] [] 0 rfl (by
    rw [hsplits]
    omega)]
  rw [List.nil_append, List.nil_append]
  unfold joinDocs
  rw [joinList_nil_sep, hsplits]
  simp only [List.isEmpty_iff, hne, if_neg]
  rfl

/-- `split_text` on a short, strip-fixed text yields the text itself. -/
theorem split_text_single (cs ov : Nat) (text : List Char)
    (hlen : text.length < cs) (hne : stripChars text ≠ []) :
    split_text cs ov text = [stripChars text] := by
  unfold split_text
  exact splitTextFuel_small cs ov DEFAULT_SEPARATORS.length DEFAULT_SEPARATORS
    text hlen hne

/-- A single chunk equal to the whole text is found at start index 0. -/
theorem createGo_single (ov : Nat) (text : List Char) (meta : Metadata) :
    createGo ov text meta [text] 0 0
      = [⟨String.mk text, { meta with startIndex := some 0 }⟩] := by
  rw [createGo]
  have hoff : ((0 : Int) + ((0 : Nat) : Int) - ((ov : Nat) : Int)).toNat = 0 := by
    omega
  rw [hoff]
  have hfind : pyFind text text 0 = 0 := by
    unfold pyFind
    rw [List.drop_zero]
    cases text with
    | nil => rfl
    | cons c cs =>
      rw [findIdx?]
      rw [if_pos (isPrefixList_refl (c :: cs))]
      rfl
  rw [hfind]
  rfl

/-- C7 (amended): three plain-text sources of 500 characters each whose
content neither begins nor ends with whitespace chunk, at
`chunk_size=1000, chunk_overlap=200`, into exactly 3 chunks, one per
source, each equal to its source's full content (at start index 0). -/
theorem split_documents_scenario_a (c1 c2 c3 : String) (m1 m2 m3 : Metadata)
    (h1 : c1.length = 500) (h2 : c2.length = 500) (h3 : c3.length = 500)
    (t1 : pyStrip c1 = c1) (t2 : pyStrip c2 = c2) (t3 : pyStrip c3 = c3) :
    split_documents 1000 200 [⟨c1, m1⟩, ⟨c2, m2⟩, ⟨c3, m3⟩]
      = [⟨c1, { m1 with startIndex := some 0 }⟩,
         ⟨c2, { m2 with startIndex := some 0 }⟩,
         ⟨c3, { m3 with startIndex := some 0 }⟩] := by
  have key : ∀ (c : String) (m : Metadata), c.length = 500 → pyStrip c = c →
      createGo 200 c.data m (split_text 1000 200 c.data) 0 0
        = [⟨c, { m with startIndex := some 0 }⟩] := by
    intro c m hc tc
    have hdata : stripChars c.data = c.data := congrArg String.data tc
    have hlen : c.data.length < 1000 := by
      have : c.data.length = c.length := rfl
      omega
    have hne : stripChars c.data ≠ [] := by
      rw [hdata]
      intro h
      have : c.data.length = 0 := by rw [h]; rfl
      have : c.data.length = c.length := rfl
      omega
    rw [split_text_single 1000 200 c.data hlen hne, hdata, createGo_single]
  unfold split_documents
  rw [if_neg (by simp)]
  rw [List.map_cons, List.map_cons, List.map_cons, List.map_nil]
  rw [key c1 m1 h1 t1, key c2 m2 h2 t2, key c3 m3 h3 t3]
  rfl

/-- Witness for the amended C7: three 500-character sources of plain
letters produce exactly their three contents as chunks. -/
theorem split_documents_scenario_a_witness :
    split_documents 1000 200
        [⟨plain500, metaA⟩, ⟨plain500, metaB⟩, ⟨plain500, metaC⟩]
      = [⟨plain500, { metaA with startIndex := some 0 }⟩,
         ⟨plain500, { metaB with startIndex := some 0 }⟩,
         ⟨plain500, { metaC with startIndex := some 0 }⟩] :=
  split_documents_scenario_a plain500 plain500 plain500 metaA metaB metaC
    (by decide) (by decide) (by decide) (by decide) (by decide) (by decide)

/-- Counterexample to C7 as stated: three 500-character plain-text
sources that end in a newline (as ordinary text files do) still produce
3 chunks, but each chunk's content is the source stripped of the
trailing newline, not the source's full content. -/
theorem split_documents_scenario_a_counterexample :
    newline500.length = 500 ∧
    (split_documents 1000 200
        [⟨newline500, metaA⟩, ⟨newline500, metaB⟩, ⟨newline500, metaC⟩]).map
      Document.pageContent = [stripped499, stripped499, stripped499] ∧
    stripped499 ≠ newline500 := by
  decide

end RAG
